import Mathlib

/-!
Verification development for the function-to-geometry pipeline of the
Math-Function-Visualizer repository (`src/src/App.tsx`).

The pipeline code in `MathSurface` is shallowly embedded here:
JavaScript numbers are modelled as `JSNum` (a rational together with the
special values `NaN`, `+Infinity`, `-Infinity`, with JavaScript's
arithmetic and comparison semantics on them), and the external `mathjs`
`evaluate` call is modelled by its visible outcome at a sample
(`EvalOutcome`): it either throws, returns a non-finite number, or
returns a finite value.  Floating-point rounding is idealized away;
every other aspect of the arithmetic (NaN and infinity propagation,
division by zero, `Math.min`/`Math.max`, `!==`) is modelled exactly.
-/

/-- Outcome of one call to the external `evaluate` at a sample:
the call throws, returns a non-finite number (`isFinite` false), or
returns a finite value. -/
inductive EvalOutcome where
  | thrown : EvalOutcome
  | nonfinite : EvalOutcome
  | finite (v : ℚ) : EvalOutcome
deriving DecidableEq, Repr

/-- JavaScript numbers, idealized: finite values are exact rationals,
plus `NaN` and the two infinities. -/
inductive JSNum where
  | nan : JSNum
  | posInf : JSNum
  | negInf : JSNum
  | fin (q : ℚ) : JSNum
deriving DecidableEq, Repr

namespace JSNum

/-- JavaScript `isFinite`. -/
def isFinite : JSNum → Bool
  | fin _ => true
  | _ => false

/-- JavaScript unary minus. -/
def neg : JSNum → JSNum
  | nan => nan
  | posInf => negInf
  | negInf => posInf
  | fin q => fin (-q)

/-- JavaScript `+`. -/
def add : JSNum → JSNum → JSNum
  | nan, _ => nan
  | _, nan => nan
  | posInf, negInf => nan
  | negInf, posInf => nan
  | posInf, _ => posInf
  | _, posInf => posInf
  | negInf, _ => negInf
  | _, negInf => negInf
  | fin a, fin b => fin (a + b)

/-- JavaScript binary `-`. -/
def sub (a b : JSNum) : JSNum := add a (neg b)

/-- JavaScript `*`. -/
def mul : JSNum → JSNum → JSNum
  | nan, _ => nan
  | _, nan => nan
  | posInf, posInf => posInf
  | posInf, negInf => negInf
  | negInf, posInf => negInf
  | negInf, negInf => posInf
  | posInf, fin q => if q = 0 then nan else if 0 < q then posInf else negInf
  | fin q, posInf => if q = 0 then nan else if 0 < q then posInf else negInf
  | negInf, fin q => if q = 0 then nan else if 0 < q then negInf else posInf
  | fin q, negInf => if q = 0 then nan else if 0 < q then negInf else posInf
  | fin a, fin b => fin (a * b)

/-- JavaScript `/` (division by zero gives a signed infinity, `0/0` gives
`NaN`, infinity over infinity gives `NaN`). -/
def div : JSNum → JSNum → JSNum
  | nan, _ => nan
  | _, nan => nan
  | posInf, posInf => nan
  | posInf, negInf => nan
  | negInf, posInf => nan
  | negInf, negInf => nan
  | posInf, fin q => if 0 ≤ q then posInf else negInf
  | negInf, fin q => if 0 ≤ q then negInf else posInf
  | fin _, posInf => fin 0
  | fin _, negInf => fin 0
  | fin a, fin b =>
      if b = 0 then (if a = 0 then nan else if 0 < a then posInf else negInf)
      else fin (a / b)

/-- JavaScript `<` (`NaN` compares false against everything). -/
def lt : JSNum → JSNum → Bool
  | nan, _ => false
  | _, nan => false
  | negInf, negInf => false
  | negInf, _ => true
  | _, negInf => false
  | posInf, _ => false
  | fin _, posInf => true
  | fin a, fin b => decide (a < b)

/-- JavaScript `Math.min` (propagates `NaN`). -/
def jmin (a b : JSNum) : JSNum :=
  if a = nan ∨ b = nan then nan else if lt a b then a else b

/-- JavaScript `Math.max` (propagates `NaN`). -/
def jmax (a b : JSNum) : JSNum :=
  if a = nan ∨ b = nan then nan else if lt a b then b else a

/-- JavaScript strict inequality `!==` (`NaN !== NaN` is true). -/
def jne (a b : JSNum) : Bool :=
  if a = nan ∨ b = nan then true else decide (a ≠ b)

end JSNum

/-- Domain half-width: `const size = 6` in `MathSurface`. -/
def size : ℚ := 6

/-- `Math.max(-10, Math.min(10, v))`: the value clamp applied to finite
evaluation results. -/
def clamp10 (v : ℚ) : ℚ := max (-10) (min 10 v)

/-- The effective (clamped) value stored for one sample: `0` when the
evaluator throws (the `catch` branch) or returns a non-finite value
(`isFinite(y) ? ... : 0`), and the clamped value otherwise. -/
def effectiveValue : EvalOutcome → ℚ
  | .thrown => 0
  | .nonfinite => 0
  | .finite v => clamp10 v

/-- The `i`-th Curve-mode x coordinate,
`x = -size + (i / (points - 1)) * (size * 2)`, computed with JavaScript
arithmetic (for `points = 1` the division is `0/0 = NaN`). -/
def curveX (points i : ℕ) : JSNum :=
  JSNum.add (.fin (-size))
    (JSNum.mul (JSNum.div (.fin (i : ℚ)) (.fin ((points : ℚ) - 1))) (.fin (size * 2)))

/-- One emitted Curve-mode vertex: position triple and color triple. -/
structure CurveVertex where
  posX : JSNum
  posY : ℚ
  posZ : ℚ
  colR : ℚ
  colG : ℚ
  colB : ℚ
deriving DecidableEq, Repr

/-- One iteration of the 2D loop of `MathSurface`.  On success the y
position is the sanitized value and the color is the positional gradient
of `normalizedY = (y + size) / (size * 2)`; in the `catch` branch only
the position is written, so the color stays at the `Float32Array` zero
initialization. -/
def curveVertex (f : JSNum → EvalOutcome) (points i : ℕ) : CurveVertex :=
  let x := curveX points i
  match f x with
  | .thrown => ⟨x, 0, 0, 0, 0, 0⟩
  | .nonfinite =>
      let y : ℚ := 0
      let ny := (y + size) / (size * 2)
      ⟨x, y, 0, 0.2 + ny * 0.8, 0.2 + (1 - ny) * 0.8, 0.2⟩
  | .finite v =>
      let y := clamp10 v
      let ny := (y + size) / (size * 2)
      ⟨x, y, 0, 0.2 + ny * 0.8, 0.2 + (1 - ny) * 0.8, 0.2⟩

/-- The full 2D branch of `MathSurface`: `resolution` vertices, one per
loop index. -/
def curvePipeline (f : JSNum → EvalOutcome) (resolution : ℕ) : List CurveVertex :=
  (List.range resolution).map (curveVertex f resolution)

/-- Modelled from the spec: x coordinate of grid column `ix` of the
`THREE.PlaneGeometry(size*2, size*2, resolution-1, resolution-1)` vertex
grid, whose generating code is not part of this repository.  Per §4.1
the grid spans `[-size, size]` per axis with the same linear spacing as
Curve mode. -/
def gridX (res ix : ℕ) : ℚ := -size + (ix : ℚ) / ((res : ℚ) - 1) * (size * 2)

/-- Modelled from the spec: y coordinate of grid row `iy`; rows run from
`+size` down to `-size` in `THREE.PlaneGeometry` row-major order. -/
def gridY (res iy : ℕ) : ℚ := size - (iy : ℚ) / ((res : ℚ) - 1) * (size * 2)

/-- Modelled from the spec: the row-major `resolution × resolution`
coordinate grid of the `THREE.PlaneGeometry` used by the 3D branch. -/
def surfaceGrid (res : ℕ) : List (ℚ × ℚ) :=
  ((List.range res).map (fun iy =>
    (List.range res).map (fun ix => (gridX res ix, gridY res iy)))).flatten

/-- State of the first 3D loop: the collected `zValues` and the running
`minZ` / `maxZ`, which start at `Infinity` / `-Infinity`. -/
structure Pass1State where
  zValues : List ℚ
  minZ : JSNum
  maxZ : JSNum
deriving DecidableEq, Repr

/-- One iteration of the first 3D loop of `MathSurface`.  On success the
sanitized value is pushed and `minZ` / `maxZ` are updated with
`Math.min` / `Math.max`; in the `catch` branch `0` is pushed and
`minZ` / `maxZ` are left untouched. -/
def surfaceStep (ev : ℚ × ℚ → EvalOutcome) (s : Pass1State) (p : ℚ × ℚ) : Pass1State :=
  match ev p with
  | .thrown => { s with zValues := s.zValues ++ [0] }
  | .nonfinite =>
      { zValues := s.zValues ++ [(0 : ℚ)],
        minZ := JSNum.jmin s.minZ (.fin 0),
        maxZ := JSNum.jmax s.maxZ (.fin 0) }
  | .finite v =>
      let z := clamp10 v
      { zValues := s.zValues ++ [z],
        minZ := JSNum.jmin s.minZ (.fin z),
        maxZ := JSNum.jmax s.maxZ (.fin z) }

/-- The whole first 3D loop, over the grid coordinates in order. -/
def surfacePass1 (ev : ℚ × ℚ → EvalOutcome) (res : ℕ) : Pass1State :=
  (surfaceGrid res).foldl (surfaceStep ev) ⟨[], .posInf, .negInf⟩

/-- `maxZ !== minZ ? (zValue - minZ) / (maxZ - minZ) : 0.5`, with
JavaScript arithmetic. -/
def normalizedHeight (minZ maxZ : JSNum) (z : ℚ) : JSNum :=
  if JSNum.jne maxZ minZ
  then JSNum.div (JSNum.sub (.fin z) minZ) (JSNum.sub maxZ minZ)
  else .fin (1/2)

/-- The three-band color map of the second 3D loop, applied to the
normalized height, with JavaScript arithmetic and comparisons. -/
def surfaceColor (h : JSNum) : JSNum × JSNum × JSNum :=
  if JSNum.lt h (.fin (33/100)) then
    let t := JSNum.div h (.fin (33/100))
    (JSNum.add (.fin 0) (JSNum.mul t (.fin (4/10))),
     JSNum.add (.fin (4/10)) (JSNum.mul t (.fin (6/10))),
     .fin (9/10))
  else if JSNum.lt h (.fin (66/100)) then
    let t := JSNum.div (JSNum.sub h (.fin (33/100))) (.fin (33/100))
    (JSNum.add (.fin (4/10)) (JSNum.mul t (.fin (5/10))),
     .fin (9/10),
     JSNum.sub (.fin (9/10)) (JSNum.mul t (.fin (6/10))))
  else
    let t := JSNum.div (JSNum.sub h (.fin (66/100))) (.fin (34/100))
    (.fin (9/10),
     JSNum.sub (.fin (9/10)) (JSNum.mul t (.fin (6/10))),
     JSNum.sub (.fin (3/10)) (JSNum.mul t (.fin (2/10))))

/-- One emitted Surface-mode vertex: grid position, z set to the
sanitized value, and the banded color of its normalized height. -/
structure SurfaceVertex where
  posX : ℚ
  posY : ℚ
  posZ : ℚ
  colR : JSNum
  colG : JSNum
  colB : JSNum
deriving DecidableEq, Repr

/-- The full 3D branch of `MathSurface`: first loop collects `zValues`
and `minZ` / `maxZ`, second loop writes z positions and banded colors. -/
def surfaceVertices (ev : ℚ × ℚ → EvalOutcome) (res : ℕ) : List SurfaceVertex :=
  let s := surfacePass1 ev res
  ((surfaceGrid res).zip s.zValues).map (fun pz =>
    let c := surfaceColor (normalizedHeight s.minZ s.maxZ pz.2)
    ⟨pz.1.1, pz.1.2, pz.2, c.1, c.2.1, c.2.2⟩)

/-- The clamped values of the samples whose evaluation does not throw,
in grid order: exactly the values with which the first 3D loop updates
`minZ` and `maxZ` (non-finite results contribute `0`; thrown samples
contribute nothing). -/
def successValues (ev : ℚ × ℚ → EvalOutcome) (res : ℕ) : List ℚ :=
  (surfaceGrid res).filterMap (fun p =>
    match ev p with
    | .thrown => none
    | .nonfinite => some 0
    | .finite v => some (clamp10 v))

/-- Visualization mode of the App component. -/
inductive Mode where
  | m2d : Mode
  | m3d : Mode
deriving DecidableEq, Repr

/-- The slice of the App component state involved in equation commits. -/
structure AppState where
  mode : Mode
  equation : String
  inputValue : String
  error : String
deriving DecidableEq, Repr

/-- The representative binding of the trial evaluation at commit time:
`{x: 1, e, pi}` in 2D mode, `{x: 1, y: 1, e, pi}` in 3D mode. -/
inductive TrialBinding where
  | xOne : TrialBinding
  | xOneYOne : TrialBinding
deriving DecidableEq, Repr

/-- Which trial binding each mode uses. -/
def trialBinding : Mode → TrialBinding
  | .m2d => .xOne
  | .m3d => .xOneYOne

/-- `handleEquationUpdate`, parametric in whether the external
`evaluate(inputValue, binding)` trial call succeeds (`true`) or throws
(`false`): on success the input becomes the active equation and the
error is cleared; on failure only the error message is set. -/
def handleEquationUpdate (trialOk : String → TrialBinding → Bool) (s : AppState) : AppState :=
  if trialOk s.inputValue (trialBinding s.mode)
  then { s with equation := s.inputValue, error := "" }
  else { s with error := "Invalid equation syntax" }

/-- `handlePresetSelect`: installs the preset as both the input text and
the active equation and clears the error; no evaluator is consulted. -/
def handlePresetSelect (s : AppState) (presetEquation : String) : AppState :=
  { s with inputValue := presetEquation, equation := presetEquation, error := "" }

/-- Evaluator outcome of the expression `x^2`: finite square at every
finite binding. -/
def squareEval : JSNum → EvalOutcome
  | .fin q => .finite (q * q)
  | _ => .nonfinite

/-- A Curve-mode evaluator that throws at every sample. -/
def throwEval : JSNum → EvalOutcome := fun _ => .thrown

/-- A Curve-mode evaluator that returns `0` at every sample. -/
def zeroEval : JSNum → EvalOutcome := fun _ => .finite 0

/-- A Surface-mode evaluator that throws at every sample. -/
def surfThrowEval : ℚ × ℚ → EvalOutcome := fun _ => .thrown

/-- A Surface-mode evaluator that returns `0` at every sample. -/
def surfZeroEval : ℚ × ℚ → EvalOutcome := fun _ => .finite 0

/-- Restatement of the spec's Surface band table (§4.3) in plain
rational arithmetic, used to compare the code's color map against the
spec's words. -/
def bandColorSpec (t : ℚ) : ℚ × ℚ × ℚ :=
  if t < 33/100 then
    (4/10 * (t / (33/100)),
     4/10 + 6/10 * (t / (33/100)),
     9/10)
  else if t < 66/100 then
    (4/10 + 5/10 * ((t - 33/100) / (33/100)),
     9/10,
     9/10 - 6/10 * ((t - 33/100) / (33/100)))
  else
    (9/10,
     9/10 - 6/10 * ((t - 66/100) / (34/100)),
     3/10 - 2/10 * ((t - 66/100) / (34/100)))

/-- A trial evaluator that succeeds on every input. -/
def okTrial : String → TrialBinding → Bool := fun _ _ => true

/-- A trial evaluator that throws on every input, as `evaluate` does on
the unterminated expression `sin(x`. -/
def badTrial : String → TrialBinding → Bool := fun _ _ => false

/-- A concrete App state: active equation `sin(x)`, pending input
`sin(x`, 2D mode, no error. -/
def state0 : AppState := ⟨Mode.m2d, "sin(x)", "sin(x", ""⟩

theorem JSNum.add_fin (a b : ℚ) : JSNum.add (.fin a) (.fin b) = .fin (a + b) := rfl

theorem JSNum.sub_fin (a b : ℚ) : JSNum.sub (.fin a) (.fin b) = .fin (a - b) := by
  simp [JSNum.sub, JSNum.neg, JSNum.add, sub_eq_add_neg]

theorem JSNum.mul_fin (a b : ℚ) : JSNum.mul (.fin a) (.fin b) = .fin (a * b) := rfl

theorem JSNum.div_fin (a b : ℚ) (hb : b ≠ 0) :
    JSNum.div (.fin a) (.fin b) = .fin (a / b) := by
  simp [JSNum.div, hb]

theorem JSNum.lt_fin (a b : ℚ) : JSNum.lt (.fin a) (.fin b) = decide (a < b) := rfl

theorem JSNum.jne_fin (a b : ℚ) : JSNum.jne (.fin a) (.fin b) = decide (a ≠ b) := by
  simp [JSNum.jne]

theorem JSNum.jmin_fin (a b : ℚ) : JSNum.jmin (.fin a) (.fin b) = .fin (min a b) := by
  simp only [JSNum.jmin, JSNum.lt_fin]
  split
  · simp_all
  · rcases lt_or_ge a b with h | h
    · simp [h, min_eq_left h.le]
    · simp [not_lt.mpr h, min_eq_right h]

theorem JSNum.jmax_fin (a b : ℚ) : JSNum.jmax (.fin a) (.fin b) = .fin (max a b) := by
  simp only [JSNum.jmax, JSNum.lt_fin]
  split
  · simp_all
  · rcases lt_or_ge a b with h | h
    · simp [h, max_eq_right h.le]
    · simp [not_lt.mpr h, max_eq_left h]

theorem JSNum.jmin_posInf_fin (b : ℚ) : JSNum.jmin .posInf (.fin b) = .fin b := by
  simp [JSNum.jmin, JSNum.lt]

theorem JSNum.jmax_negInf_fin (b : ℚ) : JSNum.jmax .negInf (.fin b) = .fin b := by
  simp [JSNum.jmax, JSNum.lt]

theorem curveVertex_posY (f : JSNum → EvalOutcome) (points i : ℕ) :
    (curveVertex f points i).posY = effectiveValue (f (curveX points i)) := by
  unfold curveVertex effectiveValue
  rcases h : f (curveX points i) with _ | _ | v <;> simp only [h]

theorem pass1_zValues_aux (ev : ℚ × ℚ → EvalOutcome) (l : List (ℚ × ℚ)) (s : Pass1State) :
    (l.foldl (surfaceStep ev) s).zValues
      = s.zValues ++ l.map (fun p => effectiveValue (ev p)) := by
  induction l generalizing s with
  | nil => simp
  | cons p l ih =>
      simp only [List.foldl_cons, ih, List.map_cons]
      rcases h : ev p with _ | _ | v <;>
        simp [surfaceStep, h, effectiveValue, List.append_assoc]

theorem surfacePass1_zValues (ev : ℚ × ℚ → EvalOutcome) (res : ℕ) :
    (surfacePass1 ev res).zValues
      = (surfaceGrid res).map (fun p => effectiveValue (ev p)) := by
  simp [surfacePass1, pass1_zValues_aux]

theorem surfaceVertices_eq_map (ev : ℚ × ℚ → EvalOutcome) (res : ℕ) :
    surfaceVertices ev res
      = (surfaceGrid res).map (fun p =>
          let z := effectiveValue (ev p)
          let c := surfaceColor
            (normalizedHeight (surfacePass1 ev res).minZ (surfacePass1 ev res).maxZ z)
          ⟨p.1, p.2, z, c.1, c.2.1, c.2.2⟩) := by
  unfold surfaceVertices
  dsimp only
  rw [surfacePass1_zValues]
  have hz : (surfaceGrid res).zip
      ((surfaceGrid res).map (fun p => effectiveValue (ev p)))
      = (surfaceGrid res).map (fun p => (p, effectiveValue (ev p))) := by
    have h := List.zip_map' (id : ℚ × ℚ → ℚ × ℚ)
      (fun p => effectiveValue (ev p)) (surfaceGrid res)
    simpa using h
  rw [hz, List.map_map]
  rfl

theorem curveVertex_posX (f : JSNum → EvalOutcome) (points i : ℕ) :
    (curveVertex f points i).posX = curveX points i := by
  unfold curveVertex
  rcases h : f (curveX points i) with _ | _ | v <;> simp only [h]


/-- Claim C2: a thrown evaluator call or a non-finite result makes that
sample's effective (clamped) value `0`, and the substitution is local:
in both modes the batch completes with one value per coordinate, the
`i`-th value being a function of the evaluator's outcome at the `i`-th
coordinate alone, so no other sample's value is affected and no
exception escapes the sampler (the sampler is a total function). -/
theorem sampler_failure_substitution (f : JSNum → EvalOutcome)
    (ev : ℚ × ℚ → EvalOutcome) (res : ℕ) :
    effectiveValue .thrown = 0 ∧
    effectiveValue .nonfinite = 0 ∧
    (curvePipeline f res).map (fun v => v.posY)
      = (List.range res).map (fun i => effectiveValue (f (curveX res i))) ∧
    (surfacePass1 ev res).zValues
      = (surfaceGrid res).map (fun p => effectiveValue (ev p)) ∧
    (curvePipeline f res).length = res ∧
    (surfacePass1 ev res).zValues.length = (surfaceGrid res).length := by
  refine ⟨rfl, rfl, ?_, surfacePass1_zValues ev res, ?_, ?_⟩
  · simp [curvePipeline, curveVertex_posY]
  · simp [curvePipeline]
  · simp [surfacePass1_zValues]

/-- Claim C6: a finite evaluation result is saturated into `[-10, 10]`
(`-10` below `-10`, `10` above `10`, identity in between), every stored
value lies in `[-10, 10]`, and for `x^2` in Curve mode at resolution 5
the clamped y values are `[10, 9, 0, 9, 10]`. -/
theorem clamp_saturates (f : JSNum → EvalOutcome) (res i : ℕ) (v : ℚ) :
    (clamp10 v = if v < -10 then -10 else if 10 < v then 10 else v) ∧
    effectiveValue (.finite v) = clamp10 v ∧
    (-10 ≤ clamp10 v ∧ clamp10 v ≤ 10) ∧
    (-10 ≤ (curveVertex f res i).posY ∧ (curveVertex f res i).posY ≤ 10) ∧
    (curvePipeline squareEval 5).map (fun u => u.posY) = [10, 9, 0, 9, 10] := by
  have hsat : ∀ w : ℚ, clamp10 w = if w < -10 then -10 else if 10 < w then 10 else w := by
    intro w
    simp only [clamp10, min_def, max_def]
    split_ifs <;> linarith
  have hbounds : ∀ w : ℚ, -10 ≤ clamp10 w ∧ clamp10 w ≤ 10 := by
    intro w
    rw [hsat w]
    split_ifs <;> constructor <;> linarith
  refine ⟨hsat v, rfl, hbounds v, ?_, ?_⟩
  · rw [curveVertex_posY]
    rcases f (curveX res i) with _ | _ | w
    · exact ⟨by norm_num [effectiveValue], by norm_num [effectiveValue]⟩
    · exact ⟨by norm_num [effectiveValue], by norm_num [effectiveValue]⟩
    · exact hbounds w
  · norm_num [curvePipeline, List.range_succ, curveVertex, curveX, size, squareEval,
      JSNum.div, JSNum.mul, JSNum.add, clamp10]

/-- Claim C9: `handleEquationUpdate` commits the typed expression only
when the trial evaluation at the mode's representative binding (`x = 1`
in 2D, `x = 1, y = 1` in 3D) succeeds; on failure the active equation is
left unchanged and the syntax-error message is reported. -/
theorem commit_contract (trialOk : String → TrialBinding → Bool) (s : AppState) :
    (trialOk s.inputValue (trialBinding s.mode) = true →
      (handleEquationUpdate trialOk s).equation = s.inputValue ∧
      (handleEquationUpdate trialOk s).error = "") ∧
    (trialOk s.inputValue (trialBinding s.mode) = false →
      (handleEquationUpdate trialOk s).equation = s.equation ∧
      (handleEquationUpdate trialOk s).inputValue = s.inputValue ∧
      (handleEquationUpdate trialOk s).error = "Invalid equation syntax") ∧
    trialBinding Mode.m2d = TrialBinding.xOne ∧
    trialBinding Mode.m3d = TrialBinding.xOneYOne := by
  unfold handleEquationUpdate
  refine ⟨fun h => ?_, fun h => ?_, rfl, rfl⟩ <;> simp [h]

theorem commit_contract_witness :
    (handleEquationUpdate badTrial state0).equation = "sin(x)" ∧
    (handleEquationUpdate badTrial state0).error = "Invalid equation syntax" ∧
    (handleEquationUpdate okTrial state0).equation = "sin(x" := by
  have hbad := (commit_contract badTrial state0).2.1 rfl
  have hok := (commit_contract okTrial state0).1 rfl
  exact ⟨hbad.1, hbad.2.2, hok.1⟩

/-- Claim C10: `handlePresetSelect` installs the preset as the active
equation immediately and clears the error for every prior state; the
definition consults no evaluator, so no trial evaluation can occur. -/
theorem preset_bypasses_commit (s : AppState) (presetEquation : String) :
    (handlePresetSelect s presetEquation).equation = presetEquation ∧
    (handlePresetSelect s presetEquation).inputValue = presetEquation ∧
    (handlePresetSelect s presetEquation).error = "" ∧
    (handlePresetSelect s presetEquation).mode = s.mode :=
  ⟨rfl, rfl, rfl, rfl⟩

theorem curve_color_thrown_cex :
    curveVertex throwEval 2 0 ∈ curvePipeline throwEval 2 ∧
    (curveVertex throwEval 2 0).posY = 0 ∧
    (curveVertex throwEval 2 0).colR = 0 ∧
    (curveVertex throwEval 2 0).colG = 0 ∧
    ((0.2 : ℚ) + ((0 + 6) / 12) * 0.8 ≠ 0) := by
  refine ⟨?_, rfl, rfl, rfl, by norm_num⟩
  unfold curvePipeline
  exact List.mem_map_of_mem _ (List.mem_range.mpr (by norm_num))

/-- Claim C4 (amended): the positional gradient
`t = (clampedValue + size) / (2 * size)`, `R = 0.2 + 0.8 t`,
`G = 0.2 + 0.8 (1 - t)`, `B = 0.2` colors every Curve vertex whose
evaluation did not throw (including non-finite results, which use the
substituted value `0`); a vertex whose evaluation threw keeps the zero
initialization `(0, 0, 0)` instead. -/
theorem curve_color_formula (f : JSNum → EvalOutcome) (res i : ℕ) :
    ((curveVertex f res i).colR, (curveVertex f res i).colG, (curveVertex f res i).colB)
      = if f (curveX res i) = .thrown then ((0 : ℚ), (0 : ℚ), (0 : ℚ))
        else
          (0.2 + (((curveVertex f res i).posY + 6) / 12) * 0.8,
           0.2 + (1 - ((curveVertex f res i).posY + 6) / 12) * 0.8,
           0.2) := by
  rcases h : f (curveX res i) with _ | _ | v <;>
    simp [curveVertex, h, size] <;> norm_num

theorem resolution_below_two_cex :
    (curvePipeline zeroEval 1).length = 1 ∧
    (curvePipeline zeroEval 1).length ≠ 2 ∧
    (curveVertex zeroEval 1 0).posX = JSNum.nan ∧
    (curveVertex zeroEval 1 0).posX.isFinite = false := by
  have hx : curveX 1 0 = JSNum.nan := by
    norm_num [curveX, size, JSNum.div, JSNum.mul, JSNum.add]
  have hpx : (curveVertex zeroEval 1 0).posX = JSNum.nan := by
    rw [curveVertex_posX, hx]
  refine ⟨by simp [curvePipeline], by simp [curvePipeline], hpx, ?_⟩
  rw [hpx]
  rfl

/-- Claim C5 (amended): the pipeline applies no defensive clamp to the
resolution: Curve mode always emits exactly `resolution` vertices, so
resolution 0 yields no vertices and resolution 1 yields a single vertex
whose x coordinate is `NaN` (from the division `0 / (1 - 1)`), not a
two-point segment with finite coordinates. -/
theorem resolution_no_defensive_clamp (f : JSNum → EvalOutcome) :
    (∀ res : ℕ, (curvePipeline f res).length = res) ∧
    (curvePipeline f 0).length = 0 ∧
    (curvePipeline f 1).length = 1 ∧
    curveX 1 0 = JSNum.nan ∧
    (curveVertex f 1 0).posX = JSNum.nan := by
  have hlen : ∀ res : ℕ, (curvePipeline f res).length = res := by
    intro res
    simp [curvePipeline]
  have hx : curveX 1 0 = JSNum.nan := by
    norm_num [curveX, size, JSNum.div, JSNum.mul, JSNum.add]
  exact ⟨hlen, hlen 0, hlen 1, hx, by rw [curveVertex_posX, hx]⟩

theorem color_in_unit_cex :
    curveVertex squareEval 5 0 ∈ curvePipeline squareEval 5 ∧
    (curveVertex squareEval 5 0).colR = 19/15 ∧
    ¬ (curveVertex squareEval 5 0).colR ≤ 1 := by
  have hmem : curveVertex squareEval 5 0 ∈ curvePipeline squareEval 5 := by
    unfold curvePipeline
    exact List.mem_map_of_mem _ (List.mem_range.mpr (by norm_num))
  have hr : (curveVertex squareEval 5 0).colR = 19/15 := by
    norm_num [curveVertex, curveX, size, squareEval, JSNum.div, JSNum.mul, JSNum.add, clamp10]
  exact ⟨hmem, hr, by rw [hr]; norm_num⟩

theorem surface_minmax_cex :
    (surfacePass1 surfThrowEval 2).zValues = [0, 0, 0, 0] ∧
    (surfacePass1 surfThrowEval 2).minZ = JSNum.posInf ∧
    (surfacePass1 surfThrowEval 2).minZ ≠ JSNum.fin 0 ∧
    (surfacePass1 surfThrowEval 2).maxZ = JSNum.negInf ∧
    normalizedHeight (surfacePass1 surfThrowEval 2).minZ
      (surfacePass1 surfThrowEval 2).maxZ 0 = JSNum.nan ∧
    JSNum.nan ≠ JSNum.fin (1/2) := by
  have hs : surfacePass1 surfThrowEval 2
      = ⟨[0, 0, 0, 0], JSNum.posInf, JSNum.negInf⟩ := by
    simp [surfacePass1, surfaceGrid, List.range_succ, surfaceStep, surfThrowEval]
  rw [hs]
  refine ⟨rfl, rfl, by simp, rfl, ?_, by simp⟩
  simp [normalizedHeight, JSNum.jne, JSNum.sub, JSNum.add, JSNum.neg, JSNum.div]

theorem surfaceColor_fin_spec (t : ℚ) :
    surfaceColor (.fin t)
      = (.fin (bandColorSpec t).1, .fin (bandColorSpec t).2.1, .fin (bandColorSpec t).2.2) := by
  have h33 : ((33 : ℚ)/100) ≠ 0 := by norm_num
  have h34 : ((34 : ℚ)/100) ≠ 0 := by norm_num
  unfold surfaceColor bandColorSpec
  simp only [JSNum.lt_fin, decide_eq_true_eq]
  split_ifs with h1 h2 <;>
    simp only [JSNum.sub_fin, JSNum.div_fin _ _ h33, JSNum.div_fin _ _ h34, JSNum.mul_fin,
      JSNum.add_fin, Prod.mk.injEq, JSNum.fin.injEq] <;>
    refine ⟨by ring_nf, by ring_nf, by ring_nf⟩

/-- Claim C8: the Surface color of a finite normalized height `t` is the
three-band piecewise-linear map with the literal band constants 0.33,
0.33, 0.34 of the spec table, reproduced exactly. -/
theorem surface_band_color_map (t : ℚ) :
    surfaceColor (.fin t)
      = (.fin (bandColorSpec t).1, .fin (bandColorSpec t).2.1, .fin (bandColorSpec t).2.2) :=
  surfaceColor_fin_spec t

theorem pass1_minZ_aux (ev : ℚ × ℚ → EvalOutcome) (l : List (ℚ × ℚ)) (s : Pass1State) :
    (l.foldl (surfaceStep ev) s).minZ
      = (l.filterMap (fun p =>
          match ev p with
          | .thrown => none
          | .nonfinite => some (0 : ℚ)
          | .finite v => some (clamp10 v))).foldl
          (fun m z => JSNum.jmin m (.fin z)) s.minZ := by
  induction l generalizing s with
  | nil => simp
  | cons p l ih =>
      simp only [List.foldl_cons, List.filterMap_cons]
      rcases h : ev p with _ | _ | v <;> simp [surfaceStep, h, ih]

theorem pass1_maxZ_aux (ev : ℚ × ℚ → EvalOutcome) (l : List (ℚ × ℚ)) (s : Pass1State) :
    (l.foldl (surfaceStep ev) s).maxZ
      = (l.filterMap (fun p =>
          match ev p with
          | .thrown => none
          | .nonfinite => some (0 : ℚ)
          | .finite v => some (clamp10 v))).foldl
          (fun m z => JSNum.jmax m (.fin z)) s.maxZ := by
  induction l generalizing s with
  | nil => simp
  | cons p l ih =>
      simp only [List.foldl_cons, List.filterMap_cons]
      rcases h : ev p with _ | _ | v <;> simp [surfaceStep, h, ih]

theorem foldl_jmin_fin (zs : List ℚ) (a : ℚ) :
    zs.foldl (fun m z => JSNum.jmin m (.fin z)) (.fin a) = .fin (zs.foldl min a) := by
  induction zs generalizing a with
  | nil => rfl
  | cons z zs ih => simp [JSNum.jmin_fin, ih]

theorem foldl_jmax_fin (zs : List ℚ) (a : ℚ) :
    zs.foldl (fun m z => JSNum.jmax m (.fin z)) (.fin a) = .fin (zs.foldl max a) := by
  induction zs generalizing a with
  | nil => rfl
  | cons z zs ih => simp [JSNum.jmax_fin, ih]

theorem foldl_jmin_posInf (zs : List ℚ) :
    zs.foldl (fun m z => JSNum.jmin m (.fin z)) .posInf
      = match zs with
        | [] => JSNum.posInf
        | z :: zs => JSNum.fin (zs.foldl min z) := by
  cases zs with
  | nil => rfl
  | cons z zs => simp [JSNum.jmin_posInf_fin, foldl_jmin_fin]

theorem foldl_jmax_negInf (zs : List ℚ) :
    zs.foldl (fun m z => JSNum.jmax m (.fin z)) .negInf
      = match zs with
        | [] => JSNum.negInf
        | z :: zs => JSNum.fin (zs.foldl max z) := by
  cases zs with
  | nil => rfl
  | cons z zs => simp [JSNum.jmax_negInf_fin, foldl_jmax_fin]

theorem surfacePass1_minZ (ev : ℚ × ℚ → EvalOutcome) (res : ℕ) :
    (surfacePass1 ev res).minZ
      = match successValues ev res with
        | [] => JSNum.posInf
        | z :: zs => JSNum.fin (zs.foldl min z) := by
  rw [surfacePass1, pass1_minZ_aux]
  exact foldl_jmin_posInf _

theorem surfacePass1_maxZ (ev : ℚ × ℚ → EvalOutcome) (res : ℕ) :
    (surfacePass1 ev res).maxZ
      = match successValues ev res with
        | [] => JSNum.negInf
        | z :: zs => JSNum.fin (zs.foldl max z) := by
  rw [surfacePass1, pass1_maxZ_aux]
  exact foldl_jmax_negInf _

/-- Claim C3 (amended): `minZ` / `maxZ` are the running min and max of
the clamped values of only those grid samples whose evaluation did not
throw (non-finite results contribute 0; thrown samples are skipped);
when `minZ = maxZ` is a finite value — which requires at least one
non-thrown sample — the normalized height is 0.5 for every sample, but
when every sample throws, `minZ` stays `+Infinity`, `maxZ` stays
`-Infinity`, and the normalized height is `NaN`, not 0.5. -/
theorem surface_minmax_tracking (ev : ℚ × ℚ → EvalOutcome) (res : ℕ) :
    ((surfacePass1 ev res).minZ
      = match successValues ev res with
        | [] => JSNum.posInf
        | z :: zs => JSNum.fin (zs.foldl min z)) ∧
    ((surfacePass1 ev res).maxZ
      = match successValues ev res with
        | [] => JSNum.negInf
        | z :: zs => JSNum.fin (zs.foldl max z)) ∧
    (∀ m z : ℚ, normalizedHeight (.fin m) (.fin m) z = .fin (1/2)) ∧
    (∀ z : ℚ, normalizedHeight .posInf .negInf z = JSNum.nan) := by
  refine ⟨surfacePass1_minZ ev res, surfacePass1_maxZ ev res, ?_, ?_⟩
  · intro m z
    simp [normalizedHeight, JSNum.jne]
  · intro z
    simp [normalizedHeight, JSNum.jne, JSNum.sub, JSNum.neg, JSNum.add, JSNum.div]

theorem surfaceGrid_length (res : ℕ) : (surfaceGrid res).length = res * res := by
  unfold surfaceGrid
  rw [List.length_flatten, List.map_map]
  have h : ((List.range res).map
      (List.length ∘ fun iy => (List.range res).map
        (fun ix => (gridX res ix, gridY res iy))))
      = (List.range res).map (fun _ => res) := by
    apply List.map_congr_left
    intro iy _
    simp
  rw [h, List.map_const', List.sum_replicate, List.length_range, smul_eq_mul]

theorem surfaceVertices_length (ev : ℚ × ℚ → EvalOutcome) (res : ℕ) :
    (surfaceVertices ev res).length = res * res := by
  rw [surfaceVertices_eq_map, List.length_map, surfaceGrid_length]

theorem mem_surfaceGrid {res : ℕ} {p : ℚ × ℚ} (hp : p ∈ surfaceGrid res) :
    ∃ iy, iy < res ∧ ∃ ix, ix < res ∧ p = (gridX res ix, gridY res iy) := by
  simp only [surfaceGrid, List.mem_flatten, List.mem_map, List.mem_range] at hp
  obtain ⟨row, ⟨iy, hiy, hrow⟩, hmem⟩ := hp
  subst hrow
  simp only [List.mem_map, List.mem_range] at hmem
  obtain ⟨ix, hix, hp⟩ := hmem
  exact ⟨iy, hiy, ix, hix, hp.symm⟩

theorem corner_mem_surfaceGrid (res ix iy : ℕ) (hix : ix < res) (hiy : iy < res) :
    (gridX res ix, gridY res iy) ∈ surfaceGrid res := by
  simp only [surfaceGrid, List.mem_flatten, List.mem_map, List.mem_range]
  exact ⟨(List.range res).map (fun j => (gridX res j, gridY res iy)),
    ⟨iy, hiy, rfl⟩, List.mem_map_of_mem _ (List.mem_range.mpr hix)⟩

theorem ratio_bounds {res i : ℕ} (h2 : 2 ≤ res) (hi : i < res) :
    0 ≤ (i : ℚ) / ((res : ℚ) - 1) ∧ (i : ℚ) / ((res : ℚ) - 1) ≤ 1 := by
  have hres : (2 : ℚ) ≤ (res : ℚ) := by exact_mod_cast h2
  have hden : (0 : ℚ) < (res : ℚ) - 1 := by linarith
  have hle : (i : ℚ) ≤ (res : ℚ) - 1 := by
    have : ((i : ℚ) + 1) ≤ (res : ℚ) := by exact_mod_cast hi
    linarith
  have h0 : (0 : ℚ) ≤ (i : ℚ) := by positivity
  exact ⟨div_nonneg h0 hden.le, (div_le_one hden).mpr hle⟩

theorem gridX_bounds {res ix : ℕ} (h2 : 2 ≤ res) (hix : ix < res) :
    -6 ≤ gridX res ix ∧ gridX res ix ≤ 6 := by
  obtain ⟨h0, h1⟩ := ratio_bounds h2 hix
  unfold gridX size
  constructor <;> nlinarith

theorem gridY_bounds {res iy : ℕ} (h2 : 2 ≤ res) (hiy : iy < res) :
    -6 ≤ gridY res iy ∧ gridY res iy ≤ 6 := by
  obtain ⟨h0, h1⟩ := ratio_bounds h2 hiy
  unfold gridY size
  constructor <;> nlinarith

theorem ratio_last {res : ℕ} (h2 : 2 ≤ res) :
    ((res - 1 : ℕ) : ℚ) / ((res : ℚ) - 1) = 1 := by
  have hres : (2 : ℚ) ≤ (res : ℚ) := by exact_mod_cast h2
  have hcast : ((res - 1 : ℕ) : ℚ) = (res : ℚ) - 1 := by
    have h1 : 1 ≤ res := le_trans (by norm_num) h2
    push_cast [h1]
    ring
  rw [hcast]
  exact div_self (by linarith)

theorem curveX_fin {N : ℕ} (hN : 2 ≤ N) (i : ℕ) :
    curveX N i = .fin (-6 + (i : ℚ) / ((N : ℚ) - 1) * 12) := by
  have hres : (2 : ℚ) ≤ (N : ℚ) := by exact_mod_cast hN
  have hden : ((N : ℚ) - 1) ≠ 0 := by
    intro h
    rw [sub_eq_zero] at h
    rw [h] at hres
    norm_num at hres
  unfold curveX size
  rw [JSNum.div_fin _ _ hden, JSNum.mul_fin, JSNum.add_fin]
  norm_num

/-- Claim C7: for every resolution `N ≥ 2`, Curve mode emits exactly
`N` vertices with `x_i = -6 + (i/(N-1)) * 12` (so the first has
`x = -6` and the last `x = 6`), and Surface mode emits exactly `N * N`
vertices on a grid spanning `[-6,6] × [-6,6]`, the corner coordinates
included. -/
theorem sampling_counts_and_span (f : JSNum → EvalOutcome)
    (ev : ℚ × ℚ → EvalOutcome) (N : ℕ) (hN : 2 ≤ N) :
    (curvePipeline f N).length = N ∧
    (∀ i, i < N → (curveVertex f N i).posX = .fin (-6 + (i : ℚ) / ((N : ℚ) - 1) * 12)) ∧
    (curveVertex f N 0).posX = .fin (-6) ∧
    (curveVertex f N (N - 1)).posX = .fin 6 ∧
    (surfaceVertices ev N).length = N * N ∧
    (∀ v ∈ surfaceVertices ev N,
      -6 ≤ v.posX ∧ v.posX ≤ 6 ∧ -6 ≤ v.posY ∧ v.posY ≤ 6) ∧
    (∃ v ∈ surfaceVertices ev N, v.posX = -6 ∧ v.posY = 6) ∧
    (∃ v ∈ surfaceVertices ev N, v.posX = 6 ∧ v.posY = -6) := by
  have hx : ∀ i, (curveVertex f N i).posX = curveX N i := fun i => curveVertex_posX f N i
  refine ⟨by simp [curvePipeline], ?_, ?_, ?_, surfaceVertices_length ev N, ?_, ?_, ?_⟩
  · intro i _
    rw [hx, curveX_fin hN]
  · rw [hx, curveX_fin hN]
    norm_num
  · rw [hx, curveX_fin hN]
    rw [ratio_last hN]
    norm_num
  · intro v hv
    rw [surfaceVertices_eq_map] at hv
    obtain ⟨p, hp, hv⟩ := List.mem_map.mp hv
    obtain ⟨iy, hiy, ix, hix, hpeq⟩ := mem_surfaceGrid hp
    subst hpeq
    obtain ⟨hx0, hx1⟩ := gridX_bounds hN hix
    obtain ⟨hy0, hy1⟩ := gridY_bounds hN hiy
    rw [← hv]
    exact ⟨hx0, hx1, hy0, hy1⟩
  · have hmem := corner_mem_surfaceGrid N 0 0 (by omega) (by omega)
    rw [surfaceVertices_eq_map]
    refine ⟨_, List.mem_map_of_mem _ hmem, ?_, ?_⟩
    · show gridX N 0 = -6
      unfold gridX size
      norm_num
    · show gridY N 0 = 6
      unfold gridY size
      norm_num
  · have hlt : N - 1 < N := by omega
    have hmem := corner_mem_surfaceGrid N (N - 1) (N - 1) hlt hlt
    rw [surfaceVertices_eq_map]
    refine ⟨_, List.mem_map_of_mem _ hmem, ?_, ?_⟩
    · show gridX N (N - 1) = 6
      unfold gridX size
      rw [ratio_last hN]
      norm_num
    · show gridY N (N - 1) = -6
      unfold gridY size
      rw [ratio_last hN]
      norm_num

theorem sampling_counts_and_span_witness :
    (curvePipeline zeroEval 2).length = 2 ∧
    (surfaceVertices surfZeroEval 2).length = 2 * 2 ∧
    (curveVertex zeroEval 2 0).posX = .fin (-6) := by
  have h := sampling_counts_and_span zeroEval surfZeroEval 2 (by norm_num)
  exact ⟨h.1, h.2.2.2.2.1, h.2.2.1⟩

theorem filterMap_eq_map_of_forall {α β : Type} (l : List α) (F : α → Option β) (G : α → β)
    (h : ∀ a ∈ l, F a = some (G a)) : l.filterMap F = l.map G := by
  induction l with
  | nil => rfl
  | cons a l ih =>
      rw [List.filterMap_cons, h a (List.mem_cons_self a l), List.map_cons,
        ih (fun b hb => h b (List.mem_cons_of_mem a hb))]

theorem successValues_of_no_thrown (ev : ℚ × ℚ → EvalOutcome) (res : ℕ)
    (h : ∀ p ∈ surfaceGrid res, ev p ≠ .thrown) :
    successValues ev res = (surfaceGrid res).map (fun p => effectiveValue (ev p)) := by
  unfold successValues
  apply filterMap_eq_map_of_forall
  intro p hp
  rcases hev : ev p with _ | _ | v
  · exact absurd hev (h p hp)
  · simp [hev, effectiveValue]
  · simp [hev, effectiveValue]

theorem foldl_min_le_init (zs : List ℚ) (a : ℚ) : zs.foldl min a ≤ a := by
  induction zs generalizing a with
  | nil => simp
  | cons z zs ih => exact le_trans (ih (min a z)) (min_le_left a z)

theorem foldl_min_le_mem (zs : List ℚ) (a : ℚ) : ∀ z ∈ zs, zs.foldl min a ≤ z := by
  induction zs generalizing a with
  | nil => simp
  | cons w zs ih =>
      intro z hz
      rcases List.mem_cons.mp hz with h | h
      · subst h
        exact le_trans (foldl_min_le_init zs (min a z)) (min_le_right a z)
      · exact ih (min a w) z h

theorem le_foldl_max_init (zs : List ℚ) (a : ℚ) : a ≤ zs.foldl max a := by
  induction zs generalizing a with
  | nil => simp
  | cons z zs ih => exact le_trans (le_max_left a z) (ih (max a z))

theorem le_foldl_max_mem (zs : List ℚ) (a : ℚ) : ∀ z ∈ zs, z ≤ zs.foldl max a := by
  induction zs generalizing a with
  | nil => simp
  | cons w zs ih =>
      intro z hz
      rcases List.mem_cons.mp hz with h | h
      · subst h
        exact le_trans (le_max_right a z) (le_foldl_max_init zs (max a z))
      · exact ih (max a w) z h

theorem bandColorSpec_bounds {t : ℚ} (h0 : 0 ≤ t) (h1 : t ≤ 1) :
    0 ≤ (bandColorSpec t).1 ∧ (bandColorSpec t).1 ≤ 1 ∧
    0 ≤ (bandColorSpec t).2.1 ∧ (bandColorSpec t).2.1 ≤ 1 ∧
    0 ≤ (bandColorSpec t).2.2 ∧ (bandColorSpec t).2.2 ≤ 1 := by
  unfold bandColorSpec
  split_ifs with hA hB <;>
    refine ⟨?_, ?_, ?_, ?_, ?_, ?_⟩ <;>
    simp only [Prod.fst, Prod.snd] <;>
    nlinarith [h0, h1]

theorem surfaceColor_unit {t : ℚ} (h0 : 0 ≤ t) (h1 : t ≤ 1) :
    ∃ r g b : ℚ, surfaceColor (.fin t) = (.fin r, .fin g, .fin b) ∧
      0 ≤ r ∧ r ≤ 1 ∧ 0 ≤ g ∧ g ≤ 1 ∧ 0 ≤ b ∧ b ≤ 1 := by
  obtain ⟨hr0, hr1, hg0, hg1, hb0, hb1⟩ := bandColorSpec_bounds h0 h1
  exact ⟨_, _, _, surfaceColor_fin_spec t, hr0, hr1, hg0, hg1, hb0, hb1⟩

theorem normalizedHeight_eq_half (m z : ℚ) :
    normalizedHeight (.fin m) (.fin m) z = .fin (1/2) := by
  simp [normalizedHeight, JSNum.jne]

theorem normalizedHeight_fin {m M : ℚ} (z : ℚ) (hne : M ≠ m) :
    normalizedHeight (.fin m) (.fin M) z = .fin ((z - m) / (M - m)) := by
  unfold normalizedHeight
  rw [JSNum.jne_fin]
  simp only [hne, decide_eq_true_eq, ne_eq, not_false_eq_true, decide_True, if_true]
  rw [JSNum.sub_fin, JSNum.sub_fin, JSNum.div_fin _ _ (sub_ne_zero.mpr hne)]

theorem curveVertex_color_bounds (f : JSNum → EvalOutcome) (res i : ℕ) :
    -(1/15) ≤ (curveVertex f res i).colR ∧ (curveVertex f res i).colR ≤ 19/15 ∧
    -(1/15) ≤ (curveVertex f res i).colG ∧ (curveVertex f res i).colG ≤ 19/15 ∧
    0 ≤ (curveVertex f res i).colB ∧ (curveVertex f res i).colB ≤ 1 := by
  have hcl : ∀ w : ℚ, -10 ≤ clamp10 w ∧ clamp10 w ≤ 10 := by
    intro w
    unfold clamp10
    exact ⟨le_max_left _ _, max_le (by norm_num) (min_le_left _ _)⟩
  rcases h : f (curveX res i) with _ | _ | v <;>
    simp only [curveVertex, h, size]
  · norm_num
  · norm_num
  · obtain ⟨hl, hr⟩ := hcl v
    refine ⟨?_, ?_, ?_, ?_, ?_, ?_⟩ <;> nlinarith [hl, hr]

/-- Claim C1 (amended): Curve-mode color channels lie in
`[-1/15, 19/15]` (blue in `[0, 1]`) — they leave `[0, 1]` exactly when
the clamped value leaves `[-6, 6]`, because the gradient normalizes by
the domain half-width 6 while values clamp to `[-10, 10]`; Surface-mode
channels lie in `[0, 1]` provided no sample evaluation throws (thrown
samples are skipped by min/max tracking, which can push normalized
heights outside `[0, 1]`). -/
theorem color_channel_bounds (f : JSNum → EvalOutcome) (ev : ℚ × ℚ → EvalOutcome) (res : ℕ) :
    (∀ v ∈ curvePipeline f res,
      -(1/15) ≤ v.colR ∧ v.colR ≤ 19/15 ∧
      -(1/15) ≤ v.colG ∧ v.colG ≤ 19/15 ∧
      0 ≤ v.colB ∧ v.colB ≤ 1) ∧
    ((∀ p ∈ surfaceGrid res, ev p ≠ .thrown) →
      ∀ v ∈ surfaceVertices ev res,
        ∃ r g b : ℚ, v.colR = .fin r ∧ v.colG = .fin g ∧ v.colB = .fin b ∧
          0 ≤ r ∧ r ≤ 1 ∧ 0 ≤ g ∧ g ≤ 1 ∧ 0 ≤ b ∧ b ≤ 1) := by
  constructor
  · intro v hv
    simp only [curvePipeline, List.mem_map, List.mem_range] at hv
    obtain ⟨i, _, rfl⟩ := hv
    exact curveVertex_color_bounds f res i
  · intro hnt v hv
    rw [surfaceVertices_eq_map] at hv
    obtain ⟨p, hp, rfl⟩ := List.mem_map.mp hv
    have hsv := successValues_of_no_thrown ev res hnt
    have hmin := surfacePass1_minZ ev res
    have hmax := surfacePass1_maxZ ev res
    rw [hsv] at hmin hmax
    cases hgl : (surfaceGrid res).map (fun q => effectiveValue (ev q)) with
    | nil =>
        exfalso
        have hz : effectiveValue (ev p)
            ∈ (surfaceGrid res).map (fun q => effectiveValue (ev q)) :=
          List.mem_map_of_mem _ hp
        rw [hgl] at hz
        exact absurd hz (List.not_mem_nil _)
    | cons z0 rest =>
        rw [hgl] at hmin hmax
        dsimp only at hmin hmax
        have hzmem : effectiveValue (ev p) ∈ z0 :: rest := by
          rw [← hgl]
          exact List.mem_map_of_mem _ hp
        have hmz : rest.foldl min z0 ≤ effectiveValue (ev p) := by
          rcases List.mem_cons.mp hzmem with h | h
          · rw [h]
            exact foldl_min_le_init rest z0
          · exact foldl_min_le_mem rest z0 _ h
        have hzM : effectiveValue (ev p) ≤ rest.foldl max z0 := by
          rcases List.mem_cons.mp hzmem with h | h
          · rw [h]
            exact le_foldl_max_init rest z0
          · exact le_foldl_max_mem rest z0 _ h
        by_cases hMm : rest.foldl max z0 = rest.foldl min z0
        · have hnh : normalizedHeight (surfacePass1 ev res).minZ
              (surfacePass1 ev res).maxZ (effectiveValue (ev p)) = .fin (1/2) := by
            rw [hmin, hmax, hMm]
            exact normalizedHeight_eq_half _ _
          obtain ⟨r, g, b, hc, hr0, hr1, hg0, hg1, hb0, hb1⟩ :=
            surfaceColor_unit (t := 1/2) (by norm_num) (by norm_num)
          refine ⟨r, g, b, ?_, ?_, ?_, hr0, hr1, hg0, hg1, hb0, hb1⟩ <;>
            simp only [hnh, hc]
        · have hnh : normalizedHeight (surfacePass1 ev res).minZ
              (surfacePass1 ev res).maxZ (effectiveValue (ev p))
              = .fin ((effectiveValue (ev p) - rest.foldl min z0)
                  / (rest.foldl max z0 - rest.foldl min z0)) := by
            rw [hmin, hmax]
            exact normalizedHeight_fin _ hMm
          have hlt : rest.foldl min z0 < rest.foldl max z0 :=
            lt_of_le_of_ne (le_trans hmz hzM) (fun h => hMm h.symm)
          have ht0 : 0 ≤ (effectiveValue (ev p) - rest.foldl min z0)
              / (rest.foldl max z0 - rest.foldl min z0) :=
            div_nonneg (by linarith) (by linarith)
          have ht1 : (effectiveValue (ev p) - rest.foldl min z0)
              / (rest.foldl max z0 - rest.foldl min z0) ≤ 1 :=
            (div_le_one (by linarith)).mpr (by linarith)
          obtain ⟨r, g, b, hc, hr0, hr1, hg0, hg1, hb0, hb1⟩ := surfaceColor_unit ht0 ht1
          refine ⟨r, g, b, ?_, ?_, ?_, hr0, hr1, hg0, hg1, hb0, hb1⟩ <;>
            simp only [hnh, hc]

theorem color_channel_bounds_witness :
    (-(1/15) ≤ (curveVertex zeroEval 2 0).colR ∧ (curveVertex zeroEval 2 0).colR ≤ 19/15) ∧
    (∃ r g b : ℚ,
      ((surfaceVertices surfZeroEval 2).headD ⟨0, 0, 0, .nan, .nan, .nan⟩).colR = .fin r ∧
      ((surfaceVertices surfZeroEval 2).headD ⟨0, 0, 0, .nan, .nan, .nan⟩).colG = .fin g ∧
      ((surfaceVertices surfZeroEval 2).headD ⟨0, 0, 0, .nan, .nan, .nan⟩).colB = .fin b ∧
      0 ≤ r ∧ r ≤ 1 ∧ 0 ≤ g ∧ g ≤ 1 ∧ 0 ≤ b ∧ b ≤ 1) := by
  have h := color_channel_bounds zeroEval surfZeroEval 2
  constructor
  · have hmem : curveVertex zeroEval 2 0 ∈ curvePipeline zeroEval 2 := by
      unfold curvePipeline
      exact List.mem_map_of_mem _ (List.mem_range.mpr (by norm_num))
    have hc := h.1 (curveVertex zeroEval 2 0) hmem
    exact ⟨hc.1, hc.2.1⟩
  · have hne : surfaceVertices surfZeroEval 2 ≠ [] := by
      intro hcontra
      have hlen := surfaceVertices_length surfZeroEval 2
      rw [hcontra] at hlen
      simp at hlen
    obtain ⟨a, as, hcons⟩ := List.exists_cons_of_ne_nil hne
    have hmem : (surfaceVertices surfZeroEval 2).headD ⟨0, 0, 0, .nan, .nan, .nan⟩
        ∈ surfaceVertices surfZeroEval 2 := by
      rw [hcons]
      exact List.mem_cons_self a as
    exact h.2 (fun p _ => by simp [surfZeroEval]) _ hmem
